import Mathlib

/-!
# Verification of the parsing and aggregation engine

Shallow embedding of the deterministic core of the repository:
* `src/src/utils/parse.ts` — monetary-value parsing (`parseValorBrasileiro`),
  date normalization (`parseDateBrasileira`), category normalization
  (`normalizeCategoria`, `parseCategoriaPath`);
* `src/finance-clarity-bot-main/src/utils/aggregate.ts` — aggregation
  (`aggregateTransactions`, `aggregateByCategory`, `aggregateByMonth`) and the
  recommendation rules (`generateRecommendations`);
* `src/finance-clarity-bot-main/src/services/openai.ts` — the record-level
  filter and transaction construction (`convertToTransactionData`).

Modelling conventions:
* JavaScript strings are Lean `String`s; the character-level pipelines work on
  `String.data` (`List Char`).
* JavaScript numbers holding integer cent amounts are `Int` (the code only
  ever adds, subtracts and compares them; float precision loss beyond 2^53 is
  not modelled).  The two float divisions in the code (category percentages
  and the month-over-month growth rate) are modelled as `Rat`; they agree with
  IEEE doubles whenever the result is exactly representable, which covers
  every concrete input used below.  JavaScript division by zero (Infinity/NaN)
  differs from `Rat` division by zero; no theorem below exercises that case.
* `new Date()` wall-clock fallbacks are passed in as an explicit `todayIso`
  parameter (an ISO timestamp string such as "2024-03-15T00:00:00.000Z").
* JavaScript `Map` is an insertion-ordered association list: `mapSet` updates
  the first (only) binding in place or appends a new one at the end, matching
  `Map.prototype.set`; iteration (`forEach`, `entries`) follows list order.
* `Array.prototype.sort` is guaranteed stable by the ECMAScript standard; a
  stable sort for a total preorder comparator is extensionally unique, so it
  is modelled by `List.insertionSort` (which is stable) with the relation
  `le a b ↔ comparator a b ≤ 0`.
-/

/-! ## Character-level helpers -/

/-- The whitespace class used by JavaScript `\s`, `trim` (ASCII part; the
inputs of interest contain no exotic Unicode spaces). -/
def isWsJS (c : Char) : Bool :=
  c == ' ' || c == '\t' || c == '\n' || c == '\r' || c == Char.ofNat 11 || c == Char.ofNat 12

/-- JavaScript `String.prototype.trim` on the character list. -/
def trimChars (l : List Char) : List Char :=
  ((l.dropWhile isWsJS).reverse.dropWhile isWsJS).reverse

/-- JavaScript `toLowerCase` on the ASCII and Latin-1 letter repertoire
(all category/marker text in the repository falls in this range). -/
def toLowerJS (c : Char) : Char :=
  if 'A' ≤ c && c ≤ 'Z' then Char.ofNat (c.toNat + 32)
  else if 0xC0 ≤ c.toNat && c.toNat ≤ 0xDE && c.toNat != 0xD7 then Char.ofNat (c.toNat + 32)
  else c

/-- Unicode NFD decomposition, modelled on the lowercase Latin-1 letters that
occur in Portuguese category text (the code lowercases before normalizing):
each precomposed letter becomes its base letter followed by a combining mark
in U+0300–U+036F.  All other characters are left alone. -/
def nfdChar (c : Char) : List Char :=
  if c == 'à' then ['a', '̀'] else
  if c == 'á' then ['a', '́'] else
  if c == 'â' then ['a', '̂'] else
  if c == 'ã' then ['a', '̃'] else
  if c == 'ä' then ['a', '̈'] else
  if c == 'å' then ['a', '̊'] else
  if c == 'ç' then ['c', '̧'] else
  if c == 'è' then ['e', '̀'] else
  if c == 'é' then ['e', '́'] else
  if c == 'ê' then ['e', '̂'] else
  if c == 'ë' then ['e', '̈'] else
  if c == 'ì' then ['i', '̀'] else
  if c == 'í' then ['i', '́'] else
  if c == 'î' then ['i', '̂'] else
  if c == 'ï' then ['i', '̈'] else
  if c == 'ñ' then ['n', '̃'] else
  if c == 'ò' then ['o', '̀'] else
  if c == 'ó' then ['o', '́'] else
  if c == 'ô' then ['o', '̂'] else
  if c == 'õ' then ['o', '̃'] else
  if c == 'ö' then ['o', '̈'] else
  if c == 'ù' then ['u', '̀'] else
  if c == 'ú' then ['u', '́'] else
  if c == 'û' then ['u', '̂'] else
  if c == 'ü' then ['u', '̈'] else
  if c == 'ý' then ['y', '́'] else
  if c == 'ÿ' then ['y', '̈'] else
  [c]

/-- The combining-diacritic range removed by `replace(/[̀-ͯ]/g, '')`. -/
def isCombining (c : Char) : Bool :=
  0x300 ≤ c.toNat && c.toNat ≤ 0x36F

/-- Membership in the character class kept by `replace(/[^a-z0-9\s]/g, '')`. -/
def keepAlnumWs (c : Char) : Bool :=
  ('a' ≤ c && c ≤ 'z') || ('0' ≤ c && c ≤ '9') || isWsJS c

/-- JavaScript `replace(/\s+/g, ' ')`: every maximal whitespace run becomes a
single space. -/
def collapseWs : List Char → List Char
  | [] => []
  | [c] => if isWsJS c then [' '] else [c]
  | c1 :: c2 :: rest =>
    if isWsJS c1 then
      if isWsJS c2 then collapseWs (c2 :: rest) else ' ' :: collapseWs (c2 :: rest)
    else c1 :: collapseWs (c2 :: rest)

/-- JavaScript `split` on a single-character class: separators delimit the
pieces, consecutive separators yield empty pieces, and the empty input yields
one empty piece. -/
def splitOnPred (p : Char → Bool) : List Char → List (List Char)
  | [] => [[]]
  | c :: rest =>
    if p c then [] :: splitOnPred p rest
    else
      match splitOnPred p rest with
      | [] => [[c]]
      | part :: parts => (c :: part) :: parts

/-- Numeric value of a non-empty digit string. -/
def natOfDigits (l : List Char) : Nat :=
  l.foldl (fun n c => n * 10 + (c.toNat - 48)) 0

/-- The leading digit run of `l`, as a number; `none` when there is none
(JavaScript `parseInt` returns `NaN` there). -/
def digitsVal (l : List Char) : Option Nat :=
  let ds := l.takeWhile Char.isDigit
  if ds.isEmpty then none else some (natOfDigits ds)

/-- JavaScript `parseInt(s)` (radix 10; the hexadecimal `0x` prefix is not
modelled, no input here carries one): optional whitespace, optional sign, then
the longest digit run; `none` models `NaN`. -/
def parseIntJS (l : List Char) : Option Int :=
  let l' := l.dropWhile isWsJS
  if l'.head? == some '-' then (digitsVal l'.tail).map (fun n => -(n : Int))
  else if l'.head? == some '+' then (digitsVal l'.tail).map (fun n => (n : Int))
  else (digitsVal l').map (fun n => (n : Int))

/-- `replace(/R\$?/g, '')`: every `R`, together with a directly following
`$` when present, is removed (left to right, non-overlapping). -/
def stripRS : List Char → List Char
  | [] => []
  | 'R' :: '$' :: rest => stripRS rest
  | 'R' :: rest => stripRS rest
  | c :: rest => c :: stripRS rest

/-- The character class kept by `replace(/[^\d,.-]/g, '')`. -/
def keepValChar (c : Char) : Bool :=
  c.isDigit || c == ',' || c == '.' || c == '-'

/-- JavaScript `replace('-', '')`: removes the first occurrence only. -/
def removeFirst (x : Char) : List Char → List Char
  | [] => []
  | c :: rest => if c == x then rest else c :: removeFirst x rest

/-- `padStart(2, '0')`. -/
def padStart2 (l : List Char) : List Char :=
  List.replicate (2 - l.length) '0' ++ l

/-- `padEnd(2, '0').substring(0, 2)`. -/
def padTake2 (l : List Char) : List Char :=
  (l ++ List.replicate (2 - l.length) '0').take 2

/-- Lexicographic-by-code-point string order as a Boolean; this is what
`localeCompare` computes on the pure-ASCII `YYYY-MM` keys it is applied to. -/
def charListLe : List Char → List Char → Bool
  | [], _ => true
  | _ :: _, [] => false
  | a :: as, b :: bs => if a < b then true else if b < a then false else charListLe as bs

/-- `a.localeCompare(b) <= 0` on `YYYY-MM` keys. -/
def strLe (a b : String) : Bool :=
  charListLe a.data b.data

/-- JavaScript `hay.includes(needle)` (substring containment). -/
def containsSub (hay needle : List Char) : Bool :=
  hay.tails.any (fun t => needle.isPrefixOf t)

/-- `toLowerCase` on a whole string. -/
def lowerStr (s : String) : String :=
  ⟨s.data.map toLowerJS⟩

/-! ## `src/src/utils/parse.ts` -/

/-- `parseValorBrasileiro` (string branch; the `typeof valor === 'number'`
branch, `Math.round(valor * 100)`, is never reached in this embedding because
the upstream classifier contract delivers `valorOriginal` as a string).
A falsy input (the empty string) yields 0. -/
def parseValorBrasileiro (valor : String) : Int :=
  if valor = "" then 0
  else
    let l0 := trimChars valor.data
    let isNegativeParentheses := l0.head? == some '(' && l0.getLast? == some ')'
    let l1 := if isNegativeParentheses then (l0.drop 1).dropLast else l0
    let l2 := trimChars ((stripRS l1).filter keepValChar)
    let isNegative := l2.head? == some '-' || isNegativeParentheses
    let l3 := if isNegative then removeFirst '-' l2 else l2
    let pair :=
      if l3.contains ',' then
        match splitOnPred (fun c => c == ',') l3 with
        | [p0, p1] =>
          if p1.length ≤ 2 then (p0.filter (fun c => !(c == '.')), padTake2 p1)
          else (([] : List Char), ([] : List Char))
        | _ => (([] : List Char), ([] : List Char))
      else if l3.contains '.' then
        match splitOnPred (fun c => c == '.') l3 with
        | [p0, p1] =>
          if p1.length ≤ 2 then (p0.filter (fun c => !(c == ',')), padTake2 p1)
          else (l3.filter (fun c => !(c == '.')), ['0', '0'])
        | _ => (l3.filter (fun c => !(c == '.')), ['0', '0'])
      else (l3, ['0', '0'])
    let parteInteiraNum := (parseIntJS pair.1).getD 0
    let centavosNum := (parseIntJS pair.2).getD 0
    let valorEmCentavos := parteInteiraNum * 100 + centavosNum
    if isNegative then -valorEmCentavos else valorEmCentavos

/-- The anchored test `/^\d{4}-\d{2}-\d{2}$/`. -/
def isIsoShape : List Char → Bool
  | [a, b, c, d, h1, e, f, h2, g, i] =>
    a.isDigit && b.isDigit && c.isDigit && d.isDigit && h1 == '-' &&
    e.isDigit && f.isDigit && h2 == '-' && g.isDigit && i.isDigit
  | _ => false

/-- The anchored match `/^(\d{1,2})\/(\d{1,2})\/(\d{2,4})$/`, returning the
three capture groups (day, month, year). -/
def matchDMY (l : List Char) : Option (List Char × List Char × List Char) :=
  let g1 := l.takeWhile Char.isDigit
  let r1 := l.dropWhile Char.isDigit
  if (1 ≤ g1.length && g1.length ≤ 2) && r1.head? == some '/' then
    let r2 := r1.tail
    let g2 := r2.takeWhile Char.isDigit
    let r3 := r2.dropWhile Char.isDigit
    if (1 ≤ g2.length && g2.length ≤ 2) && r3.head? == some '/' then
      let g3 := r3.tail
      if g3.all Char.isDigit && 2 ≤ g3.length && g3.length ≤ 4 then some (g1, g2, g3)
      else none
    else none
  else none

/-- The anchored match `/^(\d{1,2})\/(\d{1,2})\/(\d{4})$/`, returning
(month, day, year) as destructured at the use site.  Every string matching it
also matches the day-first pattern, so the branch using it is unreachable; it
is embedded for fidelity. -/
def matchMDY (l : List Char) : Option (List Char × List Char × List Char) :=
  let g1 := l.takeWhile Char.isDigit
  let r1 := l.dropWhile Char.isDigit
  if (1 ≤ g1.length && g1.length ≤ 2) && r1.head? == some '/' then
    let r2 := r1.tail
    let g2 := r2.takeWhile Char.isDigit
    let r3 := r2.dropWhile Char.isDigit
    if (1 ≤ g2.length && g2.length ≤ 2) && r3.head? == some '/' then
      let g3 := r3.tail
      if g3.all Char.isDigit && g3.length == 4 then some (g1, g2, g3)
      else none
    else none
  else none

/-- `new Date().toISOString().split('T')[0]`, with the wall clock passed in as
`todayIso`. -/
def isoDateOfToday (todayIso : String) : String :=
  ⟨((splitOnPred (fun c => c == 'T') todayIso.data).headD []).map id⟩

/-- `parseDateBrasileira`.  The wall-clock fallback (`new Date()`) is the
`todayIso` parameter. -/
def parseDateBrasileira (todayIso : String) (data : String) : String :=
  if data = "" then isoDateOfToday todayIso
  else
    let dataLimpa := trimChars data.data
    if isIsoShape dataLimpa then ⟨dataLimpa⟩
    else
      match matchDMY dataLimpa with
      | some (dia, mes, ano) =>
        let ano' :=
          if ano.length == 2 then
            if (parseIntJS ano).getD 0 < 50 then '2' :: '0' :: ano else '1' :: '9' :: ano
          else ano
        ⟨ano' ++ '-' :: padStart2 mes ++ '-' :: padStart2 dia⟩
      | none =>
        match matchMDY dataLimpa with
        | some (mes, dia, ano) => ⟨ano ++ '-' :: padStart2 mes ++ '-' :: padStart2 dia⟩
        | none => isoDateOfToday todayIso

/-- The segment-normalization pipeline of `normalizeCategoria`: trim,
lowercase, NFD-decompose, drop combining marks, drop everything outside
`[a-z0-9\s]`, collapse whitespace runs, trim. -/
def normSegment (l : List Char) : List Char :=
  trimChars (collapseWs ((((trimChars l).map toLowerJS).flatMap nfdChar).filter
    (fun c => !(isCombining c)) |>.filter keepAlnumWs))

/-- `normalizeCategoria`: a falsy (empty) input yields `"outros"`; otherwise
the pipeline result is returned as is — even when it is empty. -/
def normalizeCategoria (categoria : String) : String :=
  if categoria = "" then "outros" else ⟨normSegment categoria.data⟩

/-- `parseCategoriaPath`: split on `>`, `/`, `:`, normalize each piece, keep
the non-empty ones, fall back to `["outros"]`. -/
def parseCategoriaPath (categoria : String) : List String :=
  if categoria = "" then ["outros"]
  else
    let partes := (splitOnPred (fun c => c == '>' || c == '/' || c == ':') categoria.data).map
      (fun parte => normalizeCategoria ⟨parte⟩)
    let partes := partes.filter (fun parte => parte.length > 0)
    if partes.length > 0 then partes else ["outros"]

/-! ## Data model (`src/finance-clarity-bot-main/src/types` and interfaces of
`aggregate.ts`) -/

/-- Transaction direction.  `entrada` models the string literal `'Entrada'`
(the spec's Inflow) and `saida` models `'Saída'` (Outflow); the lowercase
`'entrada' | 'saida'` tags of `CategoryAggregate` are modelled by the same
two-element type. -/
inductive Tipo where
  | entrada
  | saida
deriving DecidableEq, Repr

/-- `TransactionData`. -/
structure TransactionData where
  id : Int
  tipo : Tipo
  valorCentavos : Int
  categoria : String
  categoriaPath : List String
  empresa : String
  descricao : String
  data : String
deriving DecidableEq, Repr

/-- `CategoryAggregate`. -/
structure CategoryAggregate where
  categoria : String
  categoriaPath : List String
  totalCentavos : Int
  tipo : Tipo
  transactionCount : Nat
  percentual : Rat
deriving DecidableEq, Repr

/-- `MonthlyAggregate`. -/
structure MonthlyAggregate where
  mes : String
  entradasCentavos : Int
  saidasCentavos : Int
  saldoCentavos : Int
  transactionCount : Nat
deriving DecidableEq, Repr

/-- `AggregationResult`. -/
structure AggregationResult where
  totalEntradasCentavos : Int
  totalSaidasCentavos : Int
  saldoCentavos : Int
  categorias : List CategoryAggregate
  meses : List MonthlyAggregate
  topCategorias : List CategoryAggregate
  mesMaisCaro : String
deriving DecidableEq, Repr

/-! ## Insertion-ordered map (JavaScript `Map` with string keys) -/

/-- `Map.prototype.get` (first — and only — binding of the key). -/
def mapGet {α : Type} : List (String × α) → String → Option α
  | [], _ => none
  | (k', v) :: rest, k => if k' = k then some v else mapGet rest k

/-- `Map.prototype.set`: update the existing binding in place (keeping its
position) or append a new one at the end. -/
def mapSet {α : Type} : List (String × α) → String → α → List (String × α)
  | [], k, v => [(k, v)]
  | (k', v') :: rest, k, v =>
    if k' = k then (k', v) :: rest else (k', v') :: mapSet rest k v

/-! ## `aggregateByCategory` -/

/-- The per-key accumulator of `aggregateByCategory`. -/
structure CatAcc where
  entrada : Int
  saida : Int
  categoriaPath : List String
  transactionCount : Nat
deriving DecidableEq, Repr

/-- The fresh accumulator created for hierarchy level `i`
(`{ entrada: 0, saida: 0, categoriaPath: path.slice(0, i + 1),
transactionCount: 0 }`). -/
def initAcc (path : List String) (i : Nat) : CatAcc :=
  { entrada := 0, saida := 0, categoriaPath := path.take (i + 1), transactionCount := 0 }

/-- `path.slice(0, i + 1).join(' > ')` for `path := t.categoriaPath`. -/
def joinSep : List String → String
  | [] => ""
  | [s] => s
  | s :: rest => s ++ " > " ++ joinSep rest

/-- The map key of transaction `t` at hierarchy level `i`. -/
def catKey (t : TransactionData) (i : Nat) : String :=
  joinSep (t.categoriaPath.take (i + 1))

/-- All map keys a transaction contributes to (one per non-empty path
slice). -/
def levelKeys (t : TransactionData) : List String :=
  (List.range t.categoriaPath.length).map (catKey t)

/-- The accumulator update for one transaction at one level: add the amount to
the matching direction and increment the count. -/
def bumpAcc (t : TransactionData) (a : CatAcc) : CatAcc :=
  { a with
    entrada := if t.tipo == Tipo.entrada then a.entrada + t.valorCentavos else a.entrada
    saida := if t.tipo == Tipo.entrada then a.saida else a.saida + t.valorCentavos
    transactionCount := a.transactionCount + 1 }

/-- One iteration of the inner `for` loop of `aggregateByCategory`. -/
def catLevel (t : TransactionData) (m : List (String × CatAcc)) (i : Nat) :
    List (String × CatAcc) :=
  mapSet m (catKey t i) (bumpAcc t ((mapGet m (catKey t i)).getD (initAcc t.categoriaPath i)))

/-- Processing one transaction (`transactions.forEach` body). -/
def catStep (m : List (String × CatAcc)) (t : TransactionData) : List (String × CatAcc) :=
  (List.range t.categoriaPath.length).foldl (catLevel t) m

/-- The fully accumulated category map. -/
def buildCatMap (ts : List TransactionData) : List (String × CatAcc) :=
  ts.foldl catStep []

/-- The inflow entry pushed for a map binding (`if (values.entrada > 0)`). -/
def entradaEntry (totalEntradas : Int) (kv : String × CatAcc) : CategoryAggregate :=
  { categoria := kv.1, categoriaPath := kv.2.categoriaPath, totalCentavos := kv.2.entrada
    tipo := Tipo.entrada, transactionCount := kv.2.transactionCount
    percentual :=
      if totalEntradas > 0 then ((kv.2.entrada : Rat) / (totalEntradas : Rat)) * 100 else 0 }

/-- The outflow entry pushed for a map binding (`if (values.saida > 0)`). -/
def saidaEntry (totalSaidas : Int) (kv : String × CatAcc) : CategoryAggregate :=
  { categoria := kv.1, categoriaPath := kv.2.categoriaPath, totalCentavos := kv.2.saida
    tipo := Tipo.saida, transactionCount := kv.2.transactionCount
    percentual :=
      if totalSaidas > 0 then ((kv.2.saida : Rat) / (totalSaidas : Rat)) * 100 else 0 }

/-- The `categoryMap.forEach` conversion: per binding, the inflow entry (when
its total is strictly positive) followed by the outflow entry (same
condition), in map insertion order. -/
def catEntriesList (totalEntradas totalSaidas : Int) (m : List (String × CatAcc)) :
    List CategoryAggregate :=
  m.flatMap (fun kv =>
    (if kv.2.entrada > 0 then [entradaEntry totalEntradas kv] else []) ++
    (if kv.2.saida > 0 then [saidaEntry totalSaidas kv] else []))

/-- The stable-sort relation of `(a, b) => b.totalCentavos - a.totalCentavos`
(descending by total). -/
def catGe (a b : CategoryAggregate) : Prop :=
  b.totalCentavos ≤ a.totalCentavos

instance : DecidableRel catGe := fun _ _ => inferInstanceAs (Decidable (_ ≤ _))

instance : IsTotal CategoryAggregate catGe :=
  ⟨fun a b => le_total b.totalCentavos a.totalCentavos⟩

instance : IsTrans CategoryAggregate catGe :=
  ⟨fun _ _ _ hab hbc => le_trans hbc hab⟩

/-- `aggregateByCategory`. -/
def aggregateByCategory (transactions : List TransactionData)
    (totalEntradas totalSaidas : Int) : List CategoryAggregate :=
  (catEntriesList totalEntradas totalSaidas (buildCatMap transactions)).insertionSort catGe

/-! ## `aggregateByMonth` -/

/-- The per-month accumulator. -/
structure MonAcc where
  entradas : Int
  saidas : Int
  count : Nat
deriving DecidableEq, Repr

/-- `transaction.data.substring(0, 7)` — the `YYYY-MM` key. -/
def monKey (t : TransactionData) : String :=
  ⟨t.data.data.take 7⟩

/-- The month accumulator update for one transaction. -/
def bumpMon (t : TransactionData) (a : MonAcc) : MonAcc :=
  { entradas := if t.tipo == Tipo.entrada then a.entradas + t.valorCentavos else a.entradas
    saidas := if t.tipo == Tipo.entrada then a.saidas else a.saidas + t.valorCentavos
    count := a.count + 1 }

/-- Processing one transaction of the monthly `forEach`. -/
def monStep (m : List (String × MonAcc)) (t : TransactionData) : List (String × MonAcc) :=
  mapSet m (monKey t) (bumpMon t ((mapGet m (monKey t)).getD ⟨0, 0, 0⟩))

/-- The stable-sort relation of `(a, b) => a.mes.localeCompare(b.mes)`
(ascending by month key). -/
def mesAsc (a b : MonthlyAggregate) : Prop :=
  strLe a.mes b.mes = true

instance : DecidableRel mesAsc := fun _ _ => inferInstanceAs (Decidable (_ = _))

/-- `aggregateByMonth`: accumulate per month in insertion order, convert, sort
ascending by `YYYY-MM` key. -/
def aggregateByMonth (transactions : List TransactionData) : List MonthlyAggregate :=
  ((transactions.foldl monStep []).map (fun kv =>
    { mes := kv.1, entradasCentavos := kv.2.entradas, saidasCentavos := kv.2.saidas
      saldoCentavos := kv.2.entradas - kv.2.saidas, transactionCount := kv.2.count }
    )).insertionSort mesAsc

/-! ## `aggregateTransactions` -/

/-- The stable-sort relation of `(a, b) => b.saidasCentavos - a.saidasCentavos`
(descending by outflow total), used by the `mesMaisCaro` computation. -/
def mesSaidasDesc (a b : MonthlyAggregate) : Prop :=
  b.saidasCentavos ≤ a.saidasCentavos

instance : DecidableRel mesSaidasDesc := fun _ _ => inferInstanceAs (Decidable (_ ≤ _))

/-- The grand inflow total (`transactions.filter(t => t.tipo === 'Entrada')
.reduce((sum, t) => sum + t.valorCentavos, 0)`). -/
def totalEntradasOf (transactions : List TransactionData) : Int :=
  (transactions.filter (fun t => t.tipo == Tipo.entrada)).foldl
    (fun sum t => sum + t.valorCentavos) 0

/-- The grand outflow total. -/
def totalSaidasOf (transactions : List TransactionData) : Int :=
  (transactions.filter (fun t => t.tipo == Tipo.saida)).foldl
    (fun sum t => sum + t.valorCentavos) 0

/-- `aggregateTransactions`.  `todayIso` stands for `new Date().toISOString()`
(used only by the `mesMaisCaro` fallback when there are no months).

The `mesMaisCaro` line reads `meses.sort((a, b) => b.saidasCentavos -
a.saidasCentavos)[0].mes`; `Array.prototype.sort` sorts **in place**, so when
`meses.length > 0` the very array stored in the returned object is the one
re-sorted descending by outflow total — the ascending order established inside
`aggregateByMonth` does not survive.  The embedding reflects this with
`mesesMutated`. -/
def aggregateTransactions (todayIso : String) (transactions : List TransactionData) :
    AggregationResult :=
  let totalEntradasCentavos := totalEntradasOf transactions
  let totalSaidasCentavos := totalSaidasOf transactions
  let saldoCentavos := totalEntradasCentavos - totalSaidasCentavos
  let categorias := aggregateByCategory transactions totalEntradasCentavos totalSaidasCentavos
  let meses := aggregateByMonth transactions
  let topCategorias :=
    ((categorias.filter (fun cat => cat.tipo == Tipo.saida)).insertionSort catGe).take 5
  let mesesMutated := if meses.length > 0 then meses.insertionSort mesSaidasDesc else meses
  let mesMaisCaro :=
    match mesesMutated with
    | [] => ⟨todayIso.data.take 7⟩
    | first :: _ => first.mes
  { totalEntradasCentavos, totalSaidasCentavos, saldoCentavos, categorias
    meses := mesesMutated, topCategorias, mesMaisCaro }

/-! ## `generateRecommendations` -/

/-- A recommendation.  The `descricao` and `impacto` fields of the source are
interpolated display strings (they format the numbers already present in the
aggregation result and never influence any branch); they are not modelled. -/
structure Recommendation where
  tipo : String
  titulo : String
deriving DecidableEq, Repr

/-- `generateRecommendations`: (1) a high-spend warning when the largest
outflow category exceeds 40 % of total outflow, (2) a positive-balance note or
a negative-balance alert, (3) a month-over-month trend note when at least two
months exist, built from `meses[meses.length - 1]` and
`meses[meses.length - 2]` (the last two elements, matched here from the
reversed list); capped at three.  The growth rate is the float
`((ultimo.saidas - penultimo.saidas) / penultimo.saidas) * 100`, modelled as
`Rat`. -/
def generateRecommendations (aggregation : AggregationResult) : List Recommendation :=
  let recs1 : List Recommendation :=
    match aggregation.topCategorias with
    | [] => []
    | maiorGasto :: _ =>
      if maiorGasto.percentual > 40 then
        [{ tipo := "otimizacao", titulo := "Gastos Elevados em " ++ maiorGasto.categoria }]
      else []
  let recs2 : List Recommendation :=
    if aggregation.saldoCentavos > 0 then
      [{ tipo := "oportunidade", titulo := "Excelente Controle Financeiro" }]
    else
      [{ tipo := "alerta", titulo := "Atenção ao Saldo Negativo" }]
  let recs3 : List Recommendation :=
    match aggregation.meses.reverse with
    | ultimoMes :: penultimoMes :: _ =>
      let crescimentoGastos : Rat :=
        (((ultimoMes.saidasCentavos - penultimoMes.saidasCentavos : Int) : Rat) /
          ((penultimoMes.saidasCentavos : Int) : Rat)) * 100
      if crescimentoGastos > 15 then
        [{ tipo := "alerta", titulo := "Crescimento de Gastos" }]
      else if crescimentoGastos < -10 then
        [{ tipo := "oportunidade", titulo := "Redução de Gastos" }]
      else []
    | _ => []
  (recs1 ++ recs2 ++ recs3).take 3

/-! ## `convertToTransactionData` (`src/finance-clarity-bot-main/src/services/openai.ts`) -/

/-- One classifier-produced record (`BatchClassificationResult.transactions`
element).  The `tipo` field is the advisory classifier hint; the converter
ignores it and re-derives the direction from the parsed amount's sign. -/
structure RawTransaction where
  id : Int
  tipo : Tipo
  valorOriginal : String
  categoria : String
  empresa : String
  descricao : String
  data : String
deriving DecidableEq, Repr

/-- The settlement/bill-payment marker phrase. -/
def markerPhrase : String := "pagamentos validos normais"

/-- The record-level filter: keep a record unless its lowercased counterparty
or description contains the marker phrase (`(raw.empresa || '')` only turns a
missing/empty field into the empty string). -/
def keepRaw (raw : RawTransaction) : Bool :=
  !(containsSub (lowerStr raw.empresa).data markerPhrase.data) &&
  !(containsSub (lowerStr raw.descricao).data markerPhrase.data)

/-- Building one `TransactionData` from a kept record: parse the amount, derive
the direction from its sign, store the absolute value, parse date and category
path, default the free-text fields. -/
def buildTransaction (todayIso : String) (raw : RawTransaction) : TransactionData :=
  let valorCentavos := parseValorBrasileiro raw.valorOriginal
  let tipo := if valorCentavos < 0 then Tipo.entrada else Tipo.saida
  { id := raw.id, tipo, valorCentavos := |valorCentavos|, categoria := raw.categoria
    categoriaPath := parseCategoriaPath raw.categoria
    empresa := if raw.empresa = "" then "Não informado" else raw.empresa
    descricao := if raw.descricao = "" then "Sem descrição" else raw.descricao
    data := parseDateBrasileira todayIso raw.data }

/-- `convertToTransactionData`: filter, then map. -/
def convertToTransactionData (todayIso : String) (rawTransactions : List RawTransaction) :
    List TransactionData :=
  (rawTransactions.filter keepRaw).map (buildTransaction todayIso)

/-! ## Definitions used by the verification statements -/

/-- Modelled from the spec: the day-first formatting rule of the
DateNormalizer, written from the spec's words for comparison with the code —
"reinterpret a 2-digit year as 19xx when ≥ 50, else 20xx; zero-pad day and
month; emit `YYYY-MM-DD`". -/
def specFormatDMY (dia mes ano : List Char) : String :=
  let ano' :=
    if ano.length = 2 then
      if 50 ≤ natOfDigits ano then '1' :: '9' :: ano else '2' :: '0' :: ano
    else ano
  ⟨ano' ++ '-' :: padStart2 mes ++ '-' :: padStart2 dia⟩

/-- A category-map key of depth 1: no `>` occurs in it.  For paths whose
segments are free of `>` (as every `parseCategoriaPath` output is), these are
exactly the keys of single-segment slices. -/
def depth1Key (k : String) : Bool :=
  !(k.data.contains '>')

/-- Well-formedness of one binding of the category map: the stored slice joins
back to the key, is non-empty, has `>`-free segments, and both accumulated
totals are non-negative.  This is the invariant `buildCatMap` maintains for
well-formed transactions. -/
def GoodEntry (kv : String × CatAcc) : Prop :=
  joinSep kv.2.categoriaPath = kv.1 ∧ kv.2.categoriaPath ≠ [] ∧
  (∀ s ∈ kv.2.categoriaPath, '>' ∉ s.data) ∧ 0 ≤ kv.2.entrada ∧ 0 ≤ kv.2.saida

/-- Well-formedness of a transaction as produced by `buildTransaction`:
non-empty category path, `>`-free segments, non-negative amount. -/
def WellFormedTx (t : TransactionData) : Prop :=
  t.categoriaPath ≠ [] ∧ (∀ s ∈ t.categoriaPath, '>' ∉ s.data) ∧ 0 ≤ t.valorCentavos

/-- The transaction count stored in the category map at key `k` (0 when the
key is absent). -/
def getCnt (m : List (String × CatAcc)) (k : String) : Nat :=
  ((mapGet m k).map (fun a => a.transactionCount)).getD 0

/-- The sum, over the map bindings whose key satisfies `P`, of the `sel`
component. -/
def sumValBy (sel : CatAcc → Int) (P : String → Bool) (m : List (String × CatAcc)) : Int :=
  (m.map (fun kv => if P kv.1 then sel kv.2 else 0)).sum

/-- The `sel` component of the binding at `k` (0 when absent). -/
def getSel (sel : CatAcc → Int) (m : List (String × CatAcc)) (k : String) : Int :=
  ((mapGet m k).map sel).getD 0

/-- Inflow contribution of a transaction. -/
def contribE (t : TransactionData) : Int :=
  if t.tipo == Tipo.entrada then t.valorCentavos else 0

/-- Outflow contribution of a transaction. -/
def contribS (t : TransactionData) : Int :=
  if t.tipo == Tipo.entrada then 0 else t.valorCentavos

/-! ## Concrete inputs used by witnesses and counterexamples -/

/-- A fixed processing instant for the wall-clock parameter. -/
def sampleToday : String := "2024-03-15T00:00:00.000Z"

/-- January outflow of R$ 100,00. -/
def txJan : TransactionData :=
  { id := 1, tipo := Tipo.saida, valorCentavos := 10000, categoria := "a", categoriaPath := ["a"]
    empresa := "E1", descricao := "D1", data := "2024-01-15" }

/-- February outflow of R$ 200,00 (larger than January's). -/
def txFev : TransactionData :=
  { id := 2, tipo := Tipo.saida, valorCentavos := 20000, categoria := "a", categoriaPath := ["a"]
    empresa := "E2", descricao := "D2", data := "2024-02-10" }

/-- A single outflow under a two-level category path. -/
def txAB : TransactionData :=
  { id := 1, tipo := Tipo.saida, valorCentavos := 1000, categoria := "A > B"
    categoriaPath := ["a", "b"], empresa := "E", descricao := "D", data := "2024-01-15" }

/-- An inflow used by the C5/C10 witnesses. -/
def txEntrada : TransactionData :=
  { id := 3, tipo := Tipo.entrada, valorCentavos := 500, categoria := "Estorno"
    categoriaPath := ["estorno"], empresa := "E3", descricao := "D3", data := "2024-01-20" }

/-- A classifier record builder for the C7/C8 scenarios. -/
def mkRaw (id : Int) (valorOriginal empresa descricao : String) : RawTransaction :=
  { id, tipo := Tipo.saida, valorOriginal, categoria := "Compras", empresa, descricao
    data := "15/01/2024" }

/-- Five classifier records of which exactly the third carries the
settlement marker (uppercase, in the counterparty field). -/
def raws5 : List RawTransaction :=
  [ mkRaw 1 "10,00" "Loja Um" "compra um"
  , mkRaw 2 "20,00" "Loja Dois" "compra dois"
  , mkRaw 3 "999,99" "PAGAMENTOS VALIDOS NORMAIS" "fatura"
  , mkRaw 4 "30,00" "Loja Tres" "compra tres"
  , mkRaw 5 "-5,00" "Loja Quatro" "estorno" ]

/-! ## Association-list map lemmas -/

theorem mapGet_mapSet {α : Type} (m : List (String × α)) (k k' : String) (v : α) :
    mapGet (mapSet m k v) k' = if k = k' then some v else mapGet m k' := by
  induction m with
  | nil => by_cases h : k = k' <;> simp [mapGet, mapSet, h]
  | cons hd tl ih =>
    obtain ⟨k0, v0⟩ := hd
    by_cases h0 : k0 = k
    · subst h0
      by_cases h1 : k0 = k' <;> simp [mapGet, mapSet, h1]
    · by_cases h1 : k0 = k'
      · subst h1
        have hk : ¬ k = k0 := fun h => h0 h.symm
        simp [mapGet, mapSet, h0, hk]
      · simp [mapGet, mapSet, h0, h1, ih]

theorem mem_mapSet {α : Type} (m : List (String × α)) (k : String) (v : α) :
    ∀ kv ∈ mapSet m k v, kv ∈ m ∨ (kv.1 = k ∧ kv.2 = v) := by
  induction m with
  | nil => intro kv hkv; simp [mapSet] at hkv; right; simp [hkv]
  | cons hd tl ih =>
    intro kv hkv
    obtain ⟨k0, v0⟩ := hd
    by_cases h0 : k0 = k
    · simp [mapSet, h0] at hkv
      rcases hkv with h | h
      · right; simp [h, h0]
      · left; simp [h]
    · simp [mapSet, h0] at hkv
      rcases hkv with h | h
      · left; simp [h]
      · rcases ih kv h with h' | h'
        · left; simp [h']
        · right; exact h'

theorem mem_of_mapGet_eq_some {α : Type} (m : List (String × α)) (k : String) (v : α)
    (h : mapGet m k = some v) : (k, v) ∈ m := by
  induction m with
  | nil => simp [mapGet] at h
  | cons hd tl ih =>
    obtain ⟨k0, v0⟩ := hd
    by_cases h0 : k0 = k
    · subst h0
      simp [mapGet] at h
      simp [h]
    · simp [mapGet, h0] at h
      simp [ih h]

theorem keys_mapSet {α : Type} (m : List (String × α)) (k : String) (v : α) :
    (mapSet m k v).map Prod.fst =
      if k ∈ m.map Prod.fst then m.map Prod.fst else m.map Prod.fst ++ [k] := by
  induction m with
  | nil => simp [mapSet]
  | cons hd tl ih =>
    obtain ⟨k0, v0⟩ := hd
    by_cases h0 : k0 = k
    · subst h0
      simp [mapSet]
    · have hne : ¬ k = k0 := fun h => h0 h.symm
      by_cases hmem : k ∈ tl.map Prod.fst <;>
        simp [mapSet, h0, hne, hmem, ih]

theorem nodup_keys_mapSet {α : Type} (m : List (String × α)) (k : String) (v : α)
    (h : (m.map Prod.fst).Nodup) : ((mapSet m k v).map Prod.fst).Nodup := by
  rw [keys_mapSet]
  by_cases hmem : k ∈ m.map Prod.fst
  · simpa [hmem] using h
  · simp [hmem, List.nodup_append, h]

theorem mapGet_eq_some_of_mem {α : Type} (m : List (String × α))
    (hnd : (m.map Prod.fst).Nodup) (k : String) (v : α) (hm : (k, v) ∈ m) :
    mapGet m k = some v := by
  induction m with
  | nil => simp at hm
  | cons hd tl ih =>
    obtain ⟨k0, v0⟩ := hd
    simp only [List.map_cons, List.nodup_cons] at hnd
    rcases List.mem_cons.mp hm with h | h
    · rw [Prod.ext_iff] at h
      obtain ⟨h1, h2⟩ := h
      dsimp at h1 h2
      subst h1
      subst h2
      simp [mapGet]
    · have hk0 : k0 ≠ k := by
        intro he
        subst he
        exact hnd.1 (List.mem_map_of_mem Prod.fst h)
      simp [mapGet, hk0]
      exact ih hnd.2 h

/-! ## Transaction counts in the category map -/

theorem getCnt_catLevel (t : TransactionData) (m : List (String × CatAcc)) (i : Nat)
    (k : String) :
    getCnt (catLevel t m i) k = getCnt m k + (if catKey t i = k then 1 else 0) := by
  unfold catLevel getCnt
  rw [mapGet_mapSet]
  by_cases h : catKey t i = k
  · subst h
    cases hm : mapGet m (catKey t i) <;> simp [bumpAcc, initAcc, hm]
  · simp [h]

theorem getCnt_foldl_catLevel (t : TransactionData) (is : List Nat)
    (m : List (String × CatAcc)) (k : String) :
    getCnt (is.foldl (catLevel t) m) k = getCnt m k + ((is.map (catKey t)).count k) := by
  induction is generalizing m with
  | nil => simp
  | cons i rest ih =>
    rw [List.foldl_cons, ih, getCnt_catLevel, List.map_cons, List.count_cons]
    by_cases h : catKey t i = k
    · simp [h]
      omega
    · simp [h]

theorem getCnt_catStep (m : List (String × CatAcc)) (t : TransactionData) (k : String) :
    getCnt (catStep m t) k = getCnt m k + ((levelKeys t).count k) :=
  getCnt_foldl_catLevel t (List.range t.categoriaPath.length) m k

theorem getCnt_foldl_catStep (ts : List TransactionData) (m : List (String × CatAcc))
    (k : String) :
    getCnt (ts.foldl catStep m) k = getCnt m k + (ts.map (fun t => (levelKeys t).count k)).sum := by
  induction ts generalizing m with
  | nil => simp
  | cons t rest ih =>
    rw [List.foldl_cons, ih, getCnt_catStep, List.map_cons, List.sum_cons]
    omega

theorem getCnt_buildCatMap (ts : List TransactionData) (k : String) :
    getCnt (buildCatMap ts) k = (ts.map (fun t => (levelKeys t).count k)).sum := by
  have h := getCnt_foldl_catStep ts [] k
  simpa [buildCatMap, getCnt, mapGet] using h

/-! ## Hierarchy keys: lengths, distinctness -/

theorem joinSep_append (l : List String) (s : String) :
    joinSep (l ++ [s]) = if l = [] then s else joinSep l ++ " > " ++ s := by
  induction l with
  | nil => simp [joinSep]
  | cons a tl ih =>
    cases tl with
    | nil => simp [joinSep]
    | cons b tl' =>
      have h1 : joinSep (a :: b :: (tl' ++ [s])) = a ++ " > " ++ joinSep (b :: (tl' ++ [s])) := rfl
      have h2 : joinSep (a :: b :: tl') = a ++ " > " ++ joinSep (b :: tl') := rfl
      have ih' : joinSep (b :: (tl' ++ [s])) =
          if b :: tl' = [] then s else joinSep (b :: tl') ++ " > " ++ s := ih
      simp only [List.cons_append] at ih' ⊢
      rw [h1, ih', h2]
      simp [String.ext_iff, String.data_append]

theorem mem_joinSep_of_two (l : List String) (h : 2 ≤ l.length) :
    '>' ∈ (joinSep l).data := by
  match l with
  | s1 :: s2 :: rest =>
    have h1 : joinSep (s1 :: s2 :: rest) = s1 ++ " > " ++ joinSep (s2 :: rest) := rfl
    rw [h1]
    simp [String.data_append]

theorem catKey_length_lt (t : TransactionData) (i : Nat)
    (h : i + 1 < t.categoriaPath.length) :
    (catKey t i).length < (catKey t (i + 1)).length := by
  unfold catKey
  have hx : t.categoriaPath[i + 1]? = some (t.categoriaPath[i + 1]) :=
    List.getElem?_eq_getElem h
  conv_rhs => rw [List.take_succ, hx]
  have hne : t.categoriaPath.take (i + 1) ≠ [] := by
    rw [Ne, List.take_eq_nil_iff]
    push_neg
    constructor
    · omega
    · intro hnil
      rw [hnil] at h
      simp at h
  rw [Option.toList_some, joinSep_append]
  simp only [hne, if_false]
  have h3 : (" > " : String).length = 3 := rfl
  simp [String.length_append]
  omega

theorem catKey_length_lt_of_lt (t : TransactionData) (i j : Nat) (hij : i < j)
    (hj : j < t.categoriaPath.length) :
    (catKey t i).length < (catKey t j).length := by
  induction j with
  | zero => omega
  | succ j ih =>
    rcases Nat.lt_succ_iff_lt_or_eq.mp hij with h | h
    · exact lt_trans (ih h (by omega)) (catKey_length_lt t j hj)
    · subst h
      exact catKey_length_lt t i hj

theorem nodup_levelKeys (t : TransactionData) : (levelKeys t).Nodup := by
  unfold levelKeys
  refine List.Nodup.map_on ?_ (List.nodup_range _)
  intro x hx y hy hxy
  rw [List.mem_range] at hx hy
  by_contra hne
  rcases lt_or_gt_of_ne hne with h | h
  · have := catKey_length_lt_of_lt t x y h hy
    rw [hxy] at this
    omega
  · have := catKey_length_lt_of_lt t y x h hx
    rw [hxy] at this
    omega

theorem count_levelKeys_eq (t : TransactionData) (k : String) :
    (levelKeys t).count k = if k ∈ levelKeys t then 1 else 0 := by
  by_cases h : k ∈ levelKeys t
  · simp [h, List.count_eq_one_of_mem (nodup_levelKeys t) h]
  · simp [h, List.count_eq_zero_of_not_mem h]

theorem sum_map_ite_one {α : Type} (l : List α) (p : α → Bool) :
    (l.map (fun x => if p x then (1 : Nat) else 0)).sum = l.countP p := by
  induction l with
  | nil => simp
  | cons a l ih =>
    rw [List.map_cons, List.sum_cons, List.countP_cons, ih]
    by_cases h : p a
    · simp [h]
      omega
    · simp [h]

/-! ## Summing map components over depth-1 keys -/

theorem sumValBy_mapSet (sel : CatAcc → Int) (P : String → Bool)
    (m : List (String × CatAcc)) (k : String) (v : CatAcc) :
    sumValBy sel P (mapSet m k v) =
      sumValBy sel P m + (if P k then sel v - getSel sel m k else 0) := by
  induction m with
  | nil => by_cases h : P k <;> simp [sumValBy, mapSet, getSel, mapGet, h]
  | cons hd tl ih =>
    obtain ⟨k0, v0⟩ := hd
    by_cases h0 : k0 = k
    · subst h0
      by_cases h : P k0
      · simp [sumValBy, mapSet, getSel, mapGet, h]
        ring
      · simp [sumValBy, mapSet, getSel, mapGet, h]
    · simp only [mapSet, h0, if_false, sumValBy, List.map_cons, List.sum_cons, getSel, mapGet]
      have ih' := ih
      simp only [sumValBy, getSel] at ih'
      rw [ih']
      ring

theorem sumValBy_catLevel (t : TransactionData) (sel : CatAcc → Int) (contrib : Int)
    (hbump : ∀ a, sel (bumpAcc t a) = sel a + contrib)
    (hinit : ∀ p i, sel (initAcc p i) = 0)
    (P : String → Bool) (m : List (String × CatAcc)) (i : Nat) :
    sumValBy sel P (catLevel t m i) =
      sumValBy sel P m + (if P (catKey t i) then contrib else 0) := by
  unfold catLevel
  rw [sumValBy_mapSet]
  congr 1
  by_cases h : P (catKey t i)
  · simp only [h, if_true]
    cases hm : mapGet m (catKey t i) with
    | none => simp [getSel, hm, hbump, hinit]
    | some w =>
      simp only [getSel, hm]
      have hw : (Option.map sel (some w)).getD 0 = sel w := rfl
      rw [hw, Option.getD_some, hbump]
      ring
  · simp [h]

theorem sumValBy_foldl_catLevel (t : TransactionData) (sel : CatAcc → Int) (contrib : Int)
    (hbump : ∀ a, sel (bumpAcc t a) = sel a + contrib)
    (hinit : ∀ p i, sel (initAcc p i) = 0)
    (P : String → Bool) (is : List Nat) (m : List (String × CatAcc)) :
    sumValBy sel P (is.foldl (catLevel t) m) =
      sumValBy sel P m + (is.map (fun i => if P (catKey t i) then contrib else 0)).sum := by
  induction is generalizing m with
  | nil => simp
  | cons i rest ih =>
    rw [List.foldl_cons, ih, sumValBy_catLevel t sel contrib hbump hinit, List.map_cons,
      List.sum_cons]
    ring

theorem sumValBy_catStep (t : TransactionData) (sel : CatAcc → Int) (contrib : Int)
    (hbump : ∀ a, sel (bumpAcc t a) = sel a + contrib)
    (hinit : ∀ p i, sel (initAcc p i) = 0)
    (P : String → Bool) (m : List (String × CatAcc))
    (hne : t.categoriaPath ≠ [])
    (hP0 : P (catKey t 0) = true)
    (hPi : ∀ i, 1 ≤ i → i < t.categoriaPath.length → P (catKey t i) = false) :
    sumValBy sel P (catStep m t) = sumValBy sel P m + contrib := by
  unfold catStep
  rw [sumValBy_foldl_catLevel t sel contrib hbump hinit]
  congr 1
  obtain ⟨n, hn⟩ : ∃ n, t.categoriaPath.length = n + 1 := by
    cases hp : t.categoriaPath with
    | nil => exact absurd hp hne
    | cons a l => exact ⟨l.length, by simp [hp]⟩
  rw [hn, List.range_succ_eq_map, List.map_cons, List.sum_cons, List.map_map]
  have hz : ((List.range n).map ((fun i => if P (catKey t i) = true then contrib else 0) ∘
      Nat.succ)).sum = 0 := by
    apply List.sum_eq_zero
    intro x hx
    rw [List.mem_map] at hx
    obtain ⟨y, hy, hxy⟩ := hx
    rw [List.mem_range] at hy
    rw [← hxy]
    simp only [Function.comp]
    rw [hPi (y + 1) (by omega) (by omega)]
    simp
  rw [hz, hP0]
  simp

/-! ## Per-transaction contributions and depth-1 keys -/

theorem saida_bumpAcc (t : TransactionData) (a : CatAcc) :
    (bumpAcc t a).saida = a.saida + contribS t := by
  unfold bumpAcc contribS
  by_cases h : t.tipo == Tipo.entrada <;> simp [h]

theorem entrada_bumpAcc (t : TransactionData) (a : CatAcc) :
    (bumpAcc t a).entrada = a.entrada + contribE t := by
  unfold bumpAcc contribE
  by_cases h : t.tipo == Tipo.entrada <;> simp [h]

theorem depth1_catKey_zero (t : TransactionData) (hne : t.categoriaPath ≠ [])
    (hseg : ∀ s ∈ t.categoriaPath, '>' ∉ s.data) : depth1Key (catKey t 0) = true := by
  cases hp : t.categoriaPath with
  | nil => exact absurd hp hne
  | cons p rest =>
    have hk : catKey t 0 = p := by
      unfold catKey
      rw [hp]
      rfl
    rw [hk]
    have hmem := hseg p (by rw [hp]; exact List.mem_cons_self p rest)
    unfold depth1Key
    simp [List.elem_iff, hmem]

theorem depth1_catKey_pos (t : TransactionData) (i : Nat) (h1 : 1 ≤ i)
    (h2 : i < t.categoriaPath.length) : depth1Key (catKey t i) = false := by
  unfold depth1Key catKey
  have hlen : 2 ≤ (t.categoriaPath.take (i + 1)).length := by
    rw [List.length_take]
    omega
  have hmem := mem_joinSep_of_two _ hlen
  simp [List.elem_iff, hmem]

theorem sumValBy_foldl_catStep (ts : List TransactionData) (m : List (String × CatAcc))
    (sel : CatAcc → Int) (contribF : TransactionData → Int)
    (hbump : ∀ t ∈ ts, ∀ a, sel (bumpAcc t a) = sel a + contribF t)
    (hinit : ∀ p i, sel (initAcc p i) = 0)
    (hwf : ∀ t ∈ ts, t.categoriaPath ≠ [] ∧ (∀ s ∈ t.categoriaPath, '>' ∉ s.data)) :
    sumValBy sel depth1Key (ts.foldl catStep m) =
      sumValBy sel depth1Key m + (ts.map contribF).sum := by
  induction ts generalizing m with
  | nil => simp
  | cons t rest ih =>
    have hwt := hwf t (List.mem_cons_self t rest)
    rw [List.foldl_cons,
      ih (catStep m t) (fun t' ht' => hbump t' (List.mem_cons_of_mem t ht'))
        (fun t' ht' => hwf t' (List.mem_cons_of_mem t ht')),
      sumValBy_catStep t sel (contribF t) (hbump t (List.mem_cons_self t rest)) hinit
        depth1Key m hwt.1 (depth1_catKey_zero t hwt.1 hwt.2)
        (fun i hi1 hi2 => depth1_catKey_pos t i hi1 hi2),
      List.map_cons, List.sum_cons]
    ring

theorem sumValBy_buildCatMap (ts : List TransactionData)
    (sel : CatAcc → Int) (contribF : TransactionData → Int)
    (hbump : ∀ t ∈ ts, ∀ a, sel (bumpAcc t a) = sel a + contribF t)
    (hinit : ∀ p i, sel (initAcc p i) = 0)
    (hwf : ∀ t ∈ ts, t.categoriaPath ≠ [] ∧ (∀ s ∈ t.categoriaPath, '>' ∉ s.data)) :
    sumValBy sel depth1Key (buildCatMap ts) = (ts.map contribF).sum := by
  have h := sumValBy_foldl_catStep ts [] sel contribF hbump hinit hwf
  simpa [buildCatMap, sumValBy] using h

/-! ## The category-map well-formedness invariant -/

theorem goodEntry_bump (t : TransactionData) (hpos : 0 ≤ t.valorCentavos) (k : String)
    (a : CatAcc) (h : GoodEntry (k, a)) : GoodEntry (k, bumpAcc t a) := by
  obtain ⟨hj, hne, hseg, he, hs⟩ := h
  have h1 : 0 ≤ contribE t := by
    unfold contribE
    by_cases hc : t.tipo == Tipo.entrada <;> simp [hc, hpos]
  have h2 : 0 ≤ contribS t := by
    unfold contribS
    by_cases hc : t.tipo == Tipo.entrada <;> simp [hc, hpos]
  refine ⟨hj, hne, hseg, ?_, ?_⟩
  · rw [entrada_bumpAcc]
    exact add_nonneg he h1
  · rw [saida_bumpAcc]
    exact add_nonneg hs h2

theorem good_catLevel (t : TransactionData) (hwf : WellFormedTx t)
    (m : List (String × CatAcc)) (i : Nat) (hgood : ∀ kv ∈ m, GoodEntry kv) :
    ∀ kv ∈ catLevel t m i, GoodEntry kv := by
  intro kv hkv
  obtain ⟨hne, hseg, hpos⟩ := hwf
  rcases mem_mapSet _ _ _ kv hkv with h | ⟨h1, h2⟩
  · exact hgood kv h
  · have hkv2 : GoodEntry (catKey t i,
        (mapGet m (catKey t i)).getD (initAcc t.categoriaPath i)) := by
      cases hm : mapGet m (catKey t i) with
      | some w =>
        rw [Option.getD_some]
        exact hgood (catKey t i, w) (mem_of_mapGet_eq_some m _ w hm)
      | none =>
        refine ⟨rfl, ?_, ?_, le_refl 0, le_refl 0⟩
        · show ¬ (t.categoriaPath.take (i + 1)) = []
          rw [List.take_eq_nil_iff]
          push_neg
          exact ⟨by omega, hne⟩
        · show ∀ s ∈ t.categoriaPath.take (i + 1), '>' ∉ s.data
          intro s hs
          exact hseg s (List.mem_of_mem_take hs)
    have hb := goodEntry_bump t hpos _ _ hkv2
    have hkv' : kv = (catKey t i,
        bumpAcc t ((mapGet m (catKey t i)).getD (initAcc t.categoriaPath i))) := by
      obtain ⟨kv1, kv2⟩ := kv
      simp only at h1 h2
      rw [h1, h2]
    rw [hkv']
    exact hb

theorem good_foldl_catLevel (t : TransactionData) (hwf : WellFormedTx t) (is : List Nat)
    (m : List (String × CatAcc)) (hgood : ∀ kv ∈ m, GoodEntry kv) :
    ∀ kv ∈ is.foldl (catLevel t) m, GoodEntry kv := by
  induction is generalizing m with
  | nil => exact hgood
  | cons i rest ih =>
    rw [List.foldl_cons]
    exact ih (catLevel t m i) (good_catLevel t hwf m i hgood)

theorem good_buildCatMap (ts : List TransactionData) (hwf : ∀ t ∈ ts, WellFormedTx t) :
    ∀ kv ∈ buildCatMap ts, GoodEntry kv := by
  suffices h : ∀ m, (∀ kv ∈ m, GoodEntry kv) → ∀ kv ∈ ts.foldl catStep m, GoodEntry kv by
    exact h [] (by simp)
  induction ts with
  | nil => intro m hm; simpa using hm
  | cons t rest ih =>
    intro m hm
    rw [List.foldl_cons]
    exact ih (fun t' ht' => hwf t' (List.mem_cons_of_mem t ht')) (catStep m t)
      (good_foldl_catLevel t (hwf t (List.mem_cons_self t rest)) _ m hm)

theorem nodup_keys_foldl_catLevel (t : TransactionData) (is : List Nat)
    (m : List (String × CatAcc)) (h : (m.map Prod.fst).Nodup) :
    ((is.foldl (catLevel t) m).map Prod.fst).Nodup := by
  induction is generalizing m with
  | nil => exact h
  | cons i rest ih =>
    rw [List.foldl_cons]
    exact ih (catLevel t m i) (nodup_keys_mapSet m _ _ h)

theorem nodup_keys_buildCatMap (ts : List TransactionData) :
    ((buildCatMap ts).map Prod.fst).Nodup := by
  suffices h : ∀ m, ((m.map Prod.fst) : List String).Nodup →
      ((ts.foldl catStep m).map Prod.fst).Nodup by
    exact h [] (by simp)
  induction ts with
  | nil => intro m hm; simpa using hm
  | cons t rest ih =>
    intro m hm
    rw [List.foldl_cons]
    exact ih (catStep m t) (nodup_keys_foldl_catLevel t _ m hm)

theorem good_depth1 (kv : String × CatAcc) (h : GoodEntry kv) :
    kv.2.categoriaPath.length = 1 ↔ depth1Key kv.1 = true := by
  obtain ⟨hjoin, hne, hseg, _, _⟩ := h
  constructor
  · intro hlen
    obtain ⟨s, hs⟩ := List.length_eq_one.mp hlen
    have hk : kv.1 = s := by
      rw [← hjoin, hs]
      rfl
    rw [hk]
    have hmem := hseg s (by rw [hs]; exact List.mem_cons_self s [])
    unfold depth1Key
    simp [List.elem_iff, hmem]
  · intro hd
    by_contra hlen
    have h0 : kv.2.categoriaPath.length ≠ 0 := fun h0 => hne (List.length_eq_zero.mp h0)
    have h2 : 2 ≤ kv.2.categoriaPath.length := by omega
    have hmem := mem_joinSep_of_two _ h2
    rw [hjoin] at hmem
    unfold depth1Key at hd
    simp [List.elem_iff, hmem] at hd

/-! ## From the category map to the emitted entry list -/

theorem mem_catEntriesList (tE tS : Int) (m : List (String × CatAcc)) (e : CategoryAggregate)
    (he : e ∈ catEntriesList tE tS m) :
    ∃ kv ∈ m, e = entradaEntry tE kv ∨ e = saidaEntry tS kv := by
  unfold catEntriesList at he
  rw [List.mem_flatMap] at he
  obtain ⟨kv, hkv, hmem⟩ := he
  rw [List.mem_append] at hmem
  refine ⟨kv, hkv, ?_⟩
  rcases hmem with h | h
  · left
    split at h
    · simpa using h
    · simp at h
  · right
    split at h
    · simpa using h
    · simp at h

theorem filter_block_sum_saida (tE tS : Int) (kv : String × CatAcc) (hgood : GoodEntry kv) :
    ((((if kv.2.entrada > 0 then [entradaEntry tE kv] else []) ++
        (if kv.2.saida > 0 then [saidaEntry tS kv] else [])).filter
      (fun c => c.tipo == Tipo.saida && c.categoriaPath.length == 1)).map
        (fun c => c.totalCentavos)).sum =
      (if depth1Key kv.1 then kv.2.saida else 0) := by
  have hdep := good_depth1 kv hgood
  have hnn := hgood.2.2.2.2
  by_cases hd : depth1Key kv.1
  · have hlen : kv.2.categoriaPath.length = 1 := hdep.mpr hd
    by_cases hs : kv.2.saida > 0
    · by_cases hent : kv.2.entrada > 0 <;>
        simp [hs, hent, hd, entradaEntry, saidaEntry, hlen]
    · have hz : kv.2.saida = 0 := le_antisymm (not_lt.mp hs) hnn
      by_cases hent : kv.2.entrada > 0 <;>
        simp [hs, hent, hd, entradaEntry, saidaEntry, hlen, hz]
  · have hlen : kv.2.categoriaPath.length ≠ 1 := fun h => hd (hdep.mp h)
    by_cases hs : kv.2.saida > 0 <;> by_cases hent : kv.2.entrada > 0 <;>
      simp [hs, hent, hd, entradaEntry, saidaEntry, hlen]

theorem filter_block_sum_entrada (tE tS : Int) (kv : String × CatAcc) (hgood : GoodEntry kv) :
    ((((if kv.2.entrada > 0 then [entradaEntry tE kv] else []) ++
        (if kv.2.saida > 0 then [saidaEntry tS kv] else [])).filter
      (fun c => c.tipo == Tipo.entrada && c.categoriaPath.length == 1)).map
        (fun c => c.totalCentavos)).sum =
      (if depth1Key kv.1 then kv.2.entrada else 0) := by
  have hdep := good_depth1 kv hgood
  have hnn := hgood.2.2.2.1
  by_cases hd : depth1Key kv.1
  · have hlen : kv.2.categoriaPath.length = 1 := hdep.mpr hd
    by_cases hent : kv.2.entrada > 0
    · by_cases hs : kv.2.saida > 0 <;>
        simp [hs, hent, hd, entradaEntry, saidaEntry, hlen]
    · have hz : kv.2.entrada = 0 := le_antisymm (not_lt.mp hent) hnn
      by_cases hs : kv.2.saida > 0 <;>
        simp [hs, hent, hd, entradaEntry, saidaEntry, hlen, hz]
  · have hlen : kv.2.categoriaPath.length ≠ 1 := fun h => hd (hdep.mp h)
    by_cases hs : kv.2.saida > 0 <;> by_cases hent : kv.2.entrada > 0 <;>
      simp [hs, hent, hd, entradaEntry, saidaEntry, hlen]

theorem filter_catEntriesList_sum_saida (tE tS : Int) (m : List (String × CatAcc))
    (hgood : ∀ kv ∈ m, GoodEntry kv) :
    (((catEntriesList tE tS m).filter
      (fun c => c.tipo == Tipo.saida && c.categoriaPath.length == 1)).map
        (fun c => c.totalCentavos)).sum = sumValBy (fun a => a.saida) depth1Key m := by
  induction m with
  | nil => simp [catEntriesList, sumValBy]
  | cons kv rest ih =>
    have h1 := hgood kv (List.mem_cons_self kv rest)
    have h2 : ∀ kv' ∈ rest, GoodEntry kv' := fun kv' h => hgood kv' (List.mem_cons_of_mem kv h)
    have hblock := filter_block_sum_saida tE tS kv h1
    simp only [catEntriesList, List.flatMap_cons, List.filter_append, List.map_append,
      List.sum_append] at ih hblock ⊢
    rw [hblock, ih h2]
    simp only [sumValBy, List.map_cons, List.sum_cons]

theorem filter_catEntriesList_sum_entrada (tE tS : Int) (m : List (String × CatAcc))
    (hgood : ∀ kv ∈ m, GoodEntry kv) :
    (((catEntriesList tE tS m).filter
      (fun c => c.tipo == Tipo.entrada && c.categoriaPath.length == 1)).map
        (fun c => c.totalCentavos)).sum = sumValBy (fun a => a.entrada) depth1Key m := by
  induction m with
  | nil => simp [catEntriesList, sumValBy]
  | cons kv rest ih =>
    have h1 := hgood kv (List.mem_cons_self kv rest)
    have h2 : ∀ kv' ∈ rest, GoodEntry kv' := fun kv' h => hgood kv' (List.mem_cons_of_mem kv h)
    have hblock := filter_block_sum_entrada tE tS kv h1
    simp only [catEntriesList, List.flatMap_cons, List.filter_append, List.map_append,
      List.sum_append] at ih hblock ⊢
    rw [hblock, ih h2]
    simp only [sumValBy, List.map_cons, List.sum_cons]

/-! ## Grand totals as mapped sums -/

theorem foldl_add_eq_sum (l : List TransactionData) (a : Int) :
    l.foldl (fun s t => s + t.valorCentavos) a =
      a + (l.map (fun t => t.valorCentavos)).sum := by
  induction l generalizing a with
  | nil => simp
  | cons t rest ih =>
    rw [List.foldl_cons, ih, List.map_cons, List.sum_cons]
    ring

theorem sum_filter_map_eq (ts : List TransactionData) (p : TransactionData → Bool) :
    ((ts.filter p).map (fun t => t.valorCentavos)).sum =
      (ts.map (fun t => if p t then t.valorCentavos else 0)).sum := by
  induction ts with
  | nil => simp
  | cons t rest ih =>
    rw [List.filter_cons]
    by_cases h : p t <;> simp [h, ih]

theorem totalEntradasOf_eq (ts : List TransactionData) :
    totalEntradasOf ts = (ts.map contribE).sum := by
  unfold totalEntradasOf
  rw [foldl_add_eq_sum, zero_add, sum_filter_map_eq]
  rfl

theorem totalSaidasOf_eq (ts : List TransactionData) :
    totalSaidasOf ts = (ts.map contribS).sum := by
  unfold totalSaidasOf
  rw [foldl_add_eq_sum, zero_add, sum_filter_map_eq]
  congr 1
  apply List.map_congr_left
  intro t _
  cases htip : t.tipo <;> simp [contribS, htip]

theorem sum_filter_insertionSort (l : List CategoryAggregate) (p : CategoryAggregate → Bool) :
    (((l.insertionSort catGe).filter p).map (fun c => c.totalCentavos)).sum =
      ((l.filter p).map (fun c => c.totalCentavos)).sum :=
  List.Perm.sum_eq (List.Perm.map _ (List.Perm.filter p (List.perm_insertionSort catGe l)))

/-! ## Claim C5 -/

/-- C5: for every list of well-formed Transactions (non-empty category path,
`>`-free segments, non-negative amount — as `buildTransaction` always
produces), the sum of `totalCentavos` over the depth-1 (single-segment-prefix)
category-aggregate entries of a kind equals the grand total of that kind, and
the balance is exactly inflow minus outflow, all in integer arithmetic. -/
theorem c5_depth1_sum_identity (todayIso : String) (ts : List TransactionData)
    (hwf : ∀ t ∈ ts, WellFormedTx t) :
    (((aggregateTransactions todayIso ts).categorias.filter
        (fun c => c.tipo == Tipo.entrada && c.categoriaPath.length == 1)).map
      (fun c => c.totalCentavos)).sum =
      (aggregateTransactions todayIso ts).totalEntradasCentavos ∧
    (((aggregateTransactions todayIso ts).categorias.filter
        (fun c => c.tipo == Tipo.saida && c.categoriaPath.length == 1)).map
      (fun c => c.totalCentavos)).sum =
      (aggregateTransactions todayIso ts).totalSaidasCentavos ∧
    (aggregateTransactions todayIso ts).saldoCentavos =
      (aggregateTransactions todayIso ts).totalEntradasCentavos -
        (aggregateTransactions todayIso ts).totalSaidasCentavos := by
  have hcat : (aggregateTransactions todayIso ts).categorias =
      (catEntriesList (totalEntradasOf ts) (totalSaidasOf ts)
        (buildCatMap ts)).insertionSort catGe := rfl
  have htotE : (aggregateTransactions todayIso ts).totalEntradasCentavos =
      totalEntradasOf ts := rfl
  have htotS : (aggregateTransactions todayIso ts).totalSaidasCentavos =
      totalSaidasOf ts := rfl
  have hgood := good_buildCatMap ts hwf
  have hwf' : ∀ t ∈ ts, t.categoriaPath ≠ [] ∧ ∀ s ∈ t.categoriaPath, '>' ∉ s.data :=
    fun t ht => ⟨(hwf t ht).1, (hwf t ht).2.1⟩
  refine ⟨?_, ?_, rfl⟩
  · rw [hcat, htotE, sum_filter_insertionSort,
      filter_catEntriesList_sum_entrada _ _ _ hgood,
      sumValBy_buildCatMap ts _ contribE (fun t _ a => entrada_bumpAcc t a)
        (fun p i => rfl) hwf',
      totalEntradasOf_eq]
  · rw [hcat, htotS, sum_filter_insertionSort,
      filter_catEntriesList_sum_saida _ _ _ hgood,
      sumValBy_buildCatMap ts _ contribS (fun t _ a => saida_bumpAcc t a)
        (fun p i => rfl) hwf',
      totalSaidasOf_eq]


/-- Witness for C5 at a concrete three-transaction input. -/
theorem c5_witness :
    (∀ t ∈ [txJan, txAB, txEntrada], WellFormedTx t) ∧
    ((((aggregateTransactions sampleToday [txJan, txAB, txEntrada]).categorias.filter
        (fun c => c.tipo == Tipo.entrada && c.categoriaPath.length == 1)).map
      (fun c => c.totalCentavos)).sum =
      (aggregateTransactions sampleToday [txJan, txAB, txEntrada]).totalEntradasCentavos ∧
    (((aggregateTransactions sampleToday [txJan, txAB, txEntrada]).categorias.filter
        (fun c => c.tipo == Tipo.saida && c.categoriaPath.length == 1)).map
      (fun c => c.totalCentavos)).sum =
      (aggregateTransactions sampleToday [txJan, txAB, txEntrada]).totalSaidasCentavos ∧
    (aggregateTransactions sampleToday [txJan, txAB, txEntrada]).saldoCentavos =
      (aggregateTransactions sampleToday [txJan, txAB, txEntrada]).totalEntradasCentavos -
        (aggregateTransactions sampleToday [txJan, txAB, txEntrada]).totalSaidasCentavos) := by
  have h : ∀ t ∈ [txJan, txAB, txEntrada], WellFormedTx t := by
    intro t ht
    simp only [List.mem_cons, List.mem_singleton, List.not_mem_nil, or_false] at ht
    rcases ht with h | h | h <;> subst h <;> exact ⟨by decide, by decide, by decide⟩
  exact ⟨h, c5_depth1_sum_identity sampleToday [txJan, txAB, txEntrada] h⟩

/-! ## Claim C10 -/

/-- C10: every category-aggregate entry's transactionCount equals the number
of transactions (of either kind) one of whose path slices generates the
entry's key. -/
theorem c10_transaction_counts (todayIso : String) (ts : List TransactionData) :
    ((aggregateTransactions todayIso ts).categorias).Forall
      (fun e => e.transactionCount =
        ts.countP (fun t => (levelKeys t).contains e.categoria)) := by
  rw [List.forall_iff_forall_mem]
  intro e he
  have hcat : (aggregateTransactions todayIso ts).categorias =
      (catEntriesList (totalEntradasOf ts) (totalSaidasOf ts)
        (buildCatMap ts)).insertionSort catGe := rfl
  rw [hcat, List.Perm.mem_iff (List.perm_insertionSort catGe _)] at he
  obtain ⟨kv, hkv, hor⟩ := mem_catEntriesList _ _ _ e he
  have hnd := nodup_keys_buildCatMap ts
  have hget : mapGet (buildCatMap ts) kv.1 = some kv.2 := by
    apply mapGet_eq_some_of_mem _ hnd
    rwa [Prod.mk.eta]
  have hcnt : getCnt (buildCatMap ts) kv.1 = kv.2.transactionCount := by
    unfold getCnt
    rw [hget]
    rfl
  have hsum := getCnt_buildCatMap ts kv.1
  have hec : e.transactionCount = kv.2.transactionCount ∧ e.categoria = kv.1 := by
    rcases hor with h | h <;> rw [h] <;> exact ⟨rfl, rfl⟩
  rw [hec.1, hec.2, ← hcnt, hsum,
    ← sum_map_ite_one ts (fun t => (levelKeys t).contains kv.1)]
  congr 1
  apply List.map_congr_left
  intro t _
  rw [count_levelKeys_eq]
  by_cases h : kv.1 ∈ levelKeys t
  · have hc : (levelKeys t).contains kv.1 = true := List.elem_iff.mpr h
    simp [h, hc]
  · have hc : ¬ ((levelKeys t).contains kv.1 = true) := fun hc => h (List.elem_iff.mp hc)
    simp [h, hc]

/-! ## Claims C1, C2, C3, C4, C6 -/

/-- C1 (code bug): at the two-month failing input, the `meses` array of the
returned `AggregationResult` comes out ordered `["2024-02", "2024-01"]` —
descending by outflow total, because the `mesMaisCaro` computation re-sorts
the array in place — even though `"2024-02"` does not precede `"2024-01"` in
the ascending `YYYY-MM` order the claim (and `aggregateByMonth` itself)
establishes. -/
theorem c1_meses_mutated_descending :
    ((aggregateTransactions sampleToday [txJan, txFev]).meses.map (fun m => m.mes)) =
      ["2024-02", "2024-01"] ∧
    ((aggregateTransactions sampleToday [txJan, txFev]).meses.map
      (fun m => m.saidasCentavos)) = [20000, 10000] ∧
    strLe "2024-02" "2024-01" = false := by decide

/-- C3 (code bug): `parseValorBrasileiro "1,234.56"` returns 0, not the
123456 the claim (and the repository's own test table) requires: the
comma branch is entered, its inner condition fails because the suffix after
the comma is `"234.56"` (length 6 > 2), and both number groups stay empty.
`"69.99"` parses as claimed. -/
theorem c3_parse_valor_divergence :
    parseValorBrasileiro "1,234.56" = 0 ∧ parseValorBrasileiro "69.99" = 6999 := by decide

/-- Counterexample to C2: with a single outflow under the path
`["a", "b"]`, `topCategorias` holds two entries — the ancestor-slice entry
with path `["a"]` (a strict prefix of the transaction's full path) and the
full-path entry — so `topCategorias` is not restricted to full-path (leaf)
entries. -/
theorem c2_counterexample :
    ((aggregateTransactions sampleToday [txAB]).topCategorias.map
      (fun c => c.categoriaPath)) = [["a"], ["a", "b"]] ∧
    txAB.categoriaPath = ["a", "b"] := by decide

/-- Counterexample to C6: the input `"#"` is non-empty, its segment
normalization yields the empty string, and `normalizeCategoria` returns the
empty string — not `"outros"`. -/
theorem c6_counterexample :
    normSegment "#".data = [] ∧ normalizeCategoria "#" = "" ∧
    normalizeCategoria "#" ≠ "outros" := by decide

theorem parseCategoriaPath_ne_nil (s : String) : parseCategoriaPath s ≠ [] := by
  unfold parseCategoriaPath
  by_cases h : s = ""
  · simp [h]
  · rw [if_neg h]
    dsimp only
    split
    · next hlen =>
      intro hnil
      rw [hnil] at hlen
      simp at hlen
    · simp

/-- C6 (amended): the `"outros"` fallback of `normalizeCategoria` applies only
to the empty (falsy) input; a non-empty input whose segment normalization
comes out empty yields the empty string.  The `["outros"]` fallback the spec
describes lives one level up: `parseCategoriaPath` never returns an empty
path. -/
theorem c6_normalize_empty_amended (s : String) (h1 : s ≠ "")
    (h2 : normSegment s.data = []) :
    normalizeCategoria s = "" ∧ parseCategoriaPath s ≠ [] := by
  refine ⟨?_, parseCategoriaPath_ne_nil s⟩
  unfold normalizeCategoria
  rw [if_neg h1, h2]

/-- Witness for C6 at the concrete input `"#"`. -/
theorem c6_witness :
    ("#" : String) ≠ "" ∧ normSegment "#".data = [] ∧
    (normalizeCategoria "#" = "" ∧ parseCategoriaPath "#" ≠ []) :=
  ⟨by decide, by decide, c6_normalize_empty_amended "#" (by decide) (by decide)⟩

/-- C2 (amended): `topCategorias` consists of the up-to-five largest-total
outflow entries of the `categorias` table — which carries an entry for every
hierarchy level, ancestor slices included, so an ancestor-slice entry can
appear alongside (or instead of) a leaf entry — in descending order of
total, with fewer than five when fewer outflow entries exist. -/
theorem c2_top_categorias_amended (todayIso : String) (ts : List TransactionData) :
    ((aggregateTransactions todayIso ts).topCategorias).Sorted catGe ∧
    ((aggregateTransactions todayIso ts).topCategorias).Forall
      (fun c => c.tipo = Tipo.saida ∧ c ∈ (aggregateTransactions todayIso ts).categorias) ∧
    ((aggregateTransactions todayIso ts).topCategorias).length =
      min 5 (((aggregateTransactions todayIso ts).categorias.filter
        (fun c => c.tipo == Tipo.saida)).length) ∧
    ((((aggregateTransactions todayIso ts).categorias.filter
        (fun c => c.tipo == Tipo.saida)).insertionSort catGe).drop 5).Forall
      (fun droppedEntry => ((aggregateTransactions todayIso ts).topCategorias).Forall
        (fun keptEntry => droppedEntry.totalCentavos ≤ keptEntry.totalCentavos)) := by
  have htop : (aggregateTransactions todayIso ts).topCategorias =
      (((aggregateTransactions todayIso ts).categorias.filter
        (fun c => c.tipo == Tipo.saida)).insertionSort catGe).take 5 := rfl
  have hsorted := List.sorted_insertionSort catGe
    ((aggregateTransactions todayIso ts).categorias.filter (fun c => c.tipo == Tipo.saida))
  refine ⟨?_, ?_, ?_, ?_⟩
  · rw [htop]
    exact List.Pairwise.sublist (List.take_sublist 5 _) hsorted
  · rw [List.forall_iff_forall_mem]
    intro c hc
    rw [htop] at hc
    have hc2 := List.mem_of_mem_take hc
    rw [List.mem_insertionSort, List.mem_filter] at hc2
    exact ⟨by simpa using hc2.2, hc2.1⟩
  · rw [htop, List.length_take,
      (List.perm_insertionSort catGe _).length_eq]
  · rw [List.forall_iff_forall_mem]
    intro d hd
    rw [List.forall_iff_forall_mem]
    intro c hc
    rw [htop] at hc
    have hsplit := List.take_append_drop 5
      (((aggregateTransactions todayIso ts).categorias.filter
        (fun c => c.tipo == Tipo.saida)).insertionSort catGe)
    have hp : List.Pairwise catGe
        ((((aggregateTransactions todayIso ts).categorias.filter
          (fun c => c.tipo == Tipo.saida)).insertionSort catGe).take 5 ++
         (((aggregateTransactions todayIso ts).categorias.filter
          (fun c => c.tipo == Tipo.saida)).insertionSort catGe).drop 5) := by
      rw [hsplit]
      exact hsorted
    exact (List.pairwise_append.mp hp).2.2 c hc d hd

/-- C4 (code bug): at the two-month failing input, the two most recent
calendar months are 2024-01 (outflow 10000) and then 2024-02 (outflow 20000)
— a +100 % month-over-month outflow growth, which per the claim must emit the
growth warning.  The code's trend rule instead reads the last two entries of
the `meses` array, which the `mesMaisCaro` computation has re-sorted in place
descending by outflow, so it compares the months in reversed roles, computes
−50 %, and emits the reduction compliment. -/
theorem c4_trend_uses_wrong_months :
    ((generateRecommendations (aggregateTransactions sampleToday [txJan, txFev])).map
      (fun r => r.titulo)) =
      ["Gastos Elevados em a", "Atenção ao Saldo Negativo", "Redução de Gastos"] ∧
    (((20000 - 10000 : Int) : Rat) / ((10000 : Int) : Rat)) * 100 > 15 := by
  constructor
  · have htop : (aggregateTransactions sampleToday [txJan, txFev]).topCategorias =
        [saidaEntry 30000 ("a", ⟨0, 30000, ["a"], 2⟩)] := by rfl
    have hmeses : (aggregateTransactions sampleToday [txJan, txFev]).meses =
        [⟨"2024-02", 0, 20000, -20000, 1⟩, ⟨"2024-01", 0, 10000, -10000, 1⟩] := by decide
    have hsaldo : (aggregateTransactions sampleToday [txJan, txFev]).saldoCentavos =
        -30000 := by decide
    unfold generateRecommendations
    rw [htop, hmeses, hsaldo]
    norm_num [saidaEntry]
    decide
  · norm_num

/-! ## Claims C7 and C8 -/

/-- C7: every Transaction the converter produces has a non-negative
`valorCentavos` equal to the absolute value of the signed amount parsed from
some input record, and its `tipo` is `entrada` exactly when that signed
amount is strictly negative (`saida` otherwise): the sign lives only in
`tipo`. -/
theorem c7_sign_invariant (todayIso : String) (raws : List RawTransaction) :
    ∀ td ∈ convertToTransactionData todayIso raws,
      0 ≤ td.valorCentavos ∧
      ∃ raw ∈ raws, td.valorCentavos = |parseValorBrasileiro raw.valorOriginal| ∧
        (td.tipo = Tipo.entrada ↔ parseValorBrasileiro raw.valorOriginal < 0) := by
  intro td htd
  unfold convertToTransactionData at htd
  rw [List.mem_map] at htd
  obtain ⟨raw, hraw, hbuild⟩ := htd
  rw [List.mem_filter] at hraw
  subst hbuild
  refine ⟨?_, raw, hraw.1, ?_, ?_⟩
  · show (0 : Int) ≤ |parseValorBrasileiro raw.valorOriginal|
    exact abs_nonneg _
  · rfl
  · show (if parseValorBrasileiro raw.valorOriginal < 0 then Tipo.entrada else Tipo.saida) =
        Tipo.entrada ↔ parseValorBrasileiro raw.valorOriginal < 0
    by_cases h : parseValorBrasileiro raw.valorOriginal < 0 <;> simp [h]

/-- Witness for C7: the inflow record (`"-5,00"`) of the five-record batch. -/
theorem c7_witness :
    buildTransaction sampleToday (mkRaw 5 "-5,00" "Loja Quatro" "estorno") ∈
      convertToTransactionData sampleToday raws5 ∧
    (0 ≤ (buildTransaction sampleToday (mkRaw 5 "-5,00" "Loja Quatro" "estorno")).valorCentavos ∧
     ∃ raw ∈ raws5,
       (buildTransaction sampleToday (mkRaw 5 "-5,00" "Loja Quatro" "estorno")).valorCentavos =
         |parseValorBrasileiro raw.valorOriginal| ∧
       ((buildTransaction sampleToday (mkRaw 5 "-5,00" "Loja Quatro" "estorno")).tipo =
          Tipo.entrada ↔ parseValorBrasileiro raw.valorOriginal < 0)) :=
  ⟨by decide, c7_sign_invariant sampleToday raws5 _ (by decide)⟩

/-- C8: a record whose lowercased counterparty or description contains the
settlement marker phrase is dropped (it is not in the filter's image), every
other record yields exactly one Transaction; at the five-record batch with
exactly one (uppercase) marked record, four Transactions result and the
aggregation totals reflect exactly those four (outflows 1000 + 2000 + 3000,
inflow 500). -/
theorem c8_settlement_exclusion (todayIso : String) (raws : List RawTransaction) :
    (convertToTransactionData todayIso raws).length = (raws.filter keepRaw).length ∧
    (∀ td ∈ convertToTransactionData todayIso raws,
      ∃ raw ∈ raws, keepRaw raw = true ∧ td = buildTransaction todayIso raw) ∧
    (convertToTransactionData sampleToday raws5).length = 4 ∧
    (aggregateTransactions sampleToday
      (convertToTransactionData sampleToday raws5)).totalSaidasCentavos = 6000 ∧
    (aggregateTransactions sampleToday
      (convertToTransactionData sampleToday raws5)).totalEntradasCentavos = 500 ∧
    (aggregateTransactions sampleToday
      (convertToTransactionData sampleToday raws5)).saldoCentavos = -5500 := by
  refine ⟨?_, ?_, by decide, by decide, by decide, by decide⟩
  · unfold convertToTransactionData
    rw [List.length_map]
  · intro td htd
    unfold convertToTransactionData at htd
    rw [List.mem_map] at htd
    obtain ⟨raw, hraw, hbuild⟩ := htd
    rw [List.mem_filter] at hraw
    exact ⟨raw, hraw.1, hraw.2, hbuild.symm⟩

/-- Witness for C8: the first kept record of the batch. -/
theorem c8_witness :
    buildTransaction sampleToday (mkRaw 1 "10,00" "Loja Um" "compra um") ∈
      convertToTransactionData sampleToday raws5 ∧
    ∃ raw ∈ raws5, keepRaw raw = true ∧
      buildTransaction sampleToday (mkRaw 1 "10,00" "Loja Um" "compra um") =
        buildTransaction sampleToday raw :=
  ⟨by decide, (c8_settlement_exclusion sampleToday raws5).2.1 _ (by decide)⟩

/-! ## Claim C9: date normalization -/

theorem toNat_ge_of_digit (c : Char) (h : c.isDigit = true) :
    48 ≤ c.toNat ∧ c.toNat ≤ 57 := by
  unfold Char.isDigit at h
  simp only [Bool.and_eq_true, decide_eq_true_eq] at h
  obtain ⟨h1, h2⟩ := h
  constructor
  · exact h1
  · exact h2

theorem isWs_false_of_digit (c : Char) (h : c.isDigit = true) : isWsJS c = false := by
  obtain ⟨h1, h2⟩ := toNat_ge_of_digit c h
  unfold isWsJS
  have hne : ∀ x : Char, x.toNat < 48 → (c == x) = false := by
    intro x hx
    rw [beq_eq_false_iff_ne]
    intro he
    rw [he] at h1
    omega
  rw [hne ' ' (by decide), hne '\t' (by decide), hne '\n' (by decide), hne '\r' (by decide),
    hne (Char.ofNat 11) (by decide), hne (Char.ofNat 12) (by decide)]
  rfl

theorem head_beq_false_of_digit (c : Char) (h : c.isDigit = true) (x : Char)
    (hx : x.toNat < 48) : (c == x) = false := by
  obtain ⟨h1, _⟩ := toNat_ge_of_digit c h
  rw [beq_eq_false_iff_ne]
  intro he
  rw [he] at h1
  omega

theorem takeWhile_all (p : Char → Bool) (l : List Char) (h : l.all p = true) :
    l.takeWhile p = l := by
  induction l with
  | nil => rfl
  | cons c rest ih =>
    rw [List.all_cons, Bool.and_eq_true] at h
    rw [List.takeWhile_cons, h.1]
    simp [ih h.2]

theorem parseIntJS_digits (l : List Char) (h : l.all Char.isDigit = true) (hne : l ≠ []) :
    parseIntJS l = some ((natOfDigits l : Int)) := by
  cases l with
  | nil => exact absurd rfl hne
  | cons c rest =>
    rw [List.all_cons, Bool.and_eq_true] at h
    obtain ⟨hc, hrest⟩ := h
    have hws : isWsJS c = false := isWs_false_of_digit c hc
    have hdrop : (c :: rest).dropWhile isWsJS = c :: rest := by
      rw [List.dropWhile_cons, hws]
      simp
    have hminus : ((some c == some '-') = false) :=
      head_beq_false_of_digit c hc '-' (by decide)
    have hplus : ((some c == some '+') = false) :=
      head_beq_false_of_digit c hc '+' (by decide)
    have htake : (c :: rest).takeWhile Char.isDigit = c :: rest :=
      takeWhile_all _ _ (by rw [List.all_cons, Bool.and_eq_true]; exact ⟨hc, hrest⟩)
    simp only [parseIntJS, hdrop, List.head?_cons, hminus, hplus, Bool.false_eq_true, if_false,
      digitsVal, htake]
    simp

theorem isIsoShape_elim (l : List Char) (h : isIsoShape l = true) :
    ∃ a b c d e f g i, l = [a, b, c, d, '-', e, f, '-', g, i] ∧
      a.isDigit = true ∧ b.isDigit = true ∧ c.isDigit = true ∧ d.isDigit = true ∧
      e.isDigit = true ∧ f.isDigit = true ∧ g.isDigit = true ∧ i.isDigit = true := by
  rcases l with _ | ⟨a, _ | ⟨b, _ | ⟨c, _ | ⟨d, _ | ⟨h1, _ | ⟨e, _ | ⟨f, _ | ⟨h2, _ |
    ⟨g, _ | ⟨i, _ | ⟨j, rest⟩⟩⟩⟩⟩⟩⟩⟩⟩⟩⟩ <;> simp [isIsoShape] at h
  obtain ⟨⟨⟨⟨⟨⟨⟨⟨⟨ha, hb⟩, hc⟩, hd⟩, hh1⟩, he⟩, hf⟩, hh2⟩, hg⟩, hi⟩ := h
  exact ⟨a, b, c, d, e, f, g, i, by rw [hh1, hh2], ha, hb, hc, hd, he, hf, hg, hi⟩

theorem matchDMY_elim (l : List Char) (d m y : List Char)
    (h : matchDMY l = some (d, m, y)) :
    d = l.takeWhile Char.isDigit ∧ 1 ≤ d.length ∧ d.length ≤ 2 ∧
    y.all Char.isDigit = true ∧ 2 ≤ y.length ∧ y.length ≤ 4 := by
  simp only [matchDMY] at h
  split at h
  · split at h
    · split at h
      · rw [Option.some.injEq, Prod.mk.injEq, Prod.mk.injEq] at h
        obtain ⟨h1, h2, h3⟩ := h
        next hc2 hc3 =>
          rw [Bool.and_eq_true, Bool.and_eq_true] at hc3
          next hc1 =>
            rw [Bool.and_eq_true, Bool.and_eq_true] at hc1
            refine ⟨h1.symm, ?_, ?_, ?_, ?_, ?_⟩
            · simpa [h1] using hc1.1.1
            · simpa [h1] using hc1.1.2
            · rw [← h3]; exact hc3.1.1
            · have := hc3.1.2
              simpa [h3] using this
            · have := hc3.2
              simpa [h3] using this
      · exact absurd h (by simp)
    · exact absurd h (by simp)
  · exact absurd h (by simp)

theorem parseDateBrasileira_iso (todayIso s : String) (h : isIsoShape s.data = true) :
    parseDateBrasileira todayIso s = s := by
  obtain ⟨a, b, c, d, e, f, g, i, hdata, ha, hb, hc, hd, he, hf, hg, hi⟩ :=
    isIsoShape_elim s.data h
  have hs : s ≠ "" := by
    intro h0
    rw [h0] at hdata
    simp at hdata
  have htrim : trimChars s.data = s.data := by
    rw [hdata]
    unfold trimChars
    have hwa : isWsJS a = false := isWs_false_of_digit a ha
    have hwi : isWsJS i = false := isWs_false_of_digit i hi
    simp [List.dropWhile_cons, hwa, hwi]
  unfold parseDateBrasileira
  rw [if_neg hs]
  dsimp only
  rw [htrim, if_pos h]

theorem parseDateBrasileira_dmy (todayIso s : String) (d m y : List Char)
    (h : matchDMY (trimChars s.data) = some (d, m, y)) :
    parseDateBrasileira todayIso s = specFormatDMY d m y := by
  obtain ⟨hd, hd1, hd2, hyall, hy2, hy4⟩ := matchDMY_elim _ _ _ _ h
  have hs : s ≠ "" := by
    intro h0
    rw [h0] at h
    have hnone : matchDMY (trimChars ("" : String).data) = none := by decide
    rw [hnone] at h
    exact Option.noConfusion h
  have hiso : isIsoShape (trimChars s.data) = false := by
    by_contra hbc
    rw [Bool.not_eq_false] at hbc
    obtain ⟨a, b, c, dd, e, f, g, i, hdata, ha, hb, hc2, hdd, _, _, _, _⟩ :=
      isIsoShape_elim _ hbc
    have htk : (trimChars s.data).takeWhile Char.isDigit = [a, b, c, dd] := by
      rw [hdata]
      have : ('-' : Char).isDigit = false := by decide
      simp [List.takeWhile_cons, ha, hb, hc2, hdd, this]
    rw [htk] at hd
    rw [hd] at hd2
    simp at hd2
  have hyne : y ≠ [] := by
    intro hnil
    rw [hnil] at hy2
    simp at hy2
  have hyear : (if y.length == 2 then
        (if (parseIntJS y).getD 0 < 50 then '2' :: '0' :: y else '1' :: '9' :: y)
      else y) =
      (if y.length = 2 then
        (if 50 ≤ natOfDigits y then '1' :: '9' :: y else '2' :: '0' :: y)
      else y) := by
    by_cases hln : y.length = 2
    · have hbeq : (y.length == 2) = true := by simp [hln]
      rw [hbeq, if_pos rfl, if_pos hln, parseIntJS_digits y hyall hyne, Option.getD_some]
      by_cases h50 : 50 ≤ natOfDigits y
      · rw [if_neg (by exact_mod_cast not_lt.mpr h50), if_pos h50]
      · rw [if_pos (by exact_mod_cast not_le.mp h50), if_neg h50]
    · have hbeq : (y.length == 2) = false := by simp [hln]
      rw [hbeq, if_neg hln]
      simp
  unfold parseDateBrasileira
  rw [if_neg hs]
  dsimp only
  rw [hiso]
  simp only [Bool.false_eq_true, if_false]
  rw [h]
  unfold specFormatDMY
  dsimp only
  rw [← hyear]

/-- C9: an input already of shape `YYYY-MM-DD` is returned unchanged; an
input whose trimmed text matches `D{1,2}/M{1,2}/Y{2,4}` is reformatted by
zero-padding day and month and mapping a 2-digit year `y` to `19y` when
`y ≥ 50` and to `20y` otherwise (the spec-side formatter `specFormatDMY`);
in particular `"15/01/2024"` yields `"2024-01-15"` and `"01/12/23"` yields
`"2023-12-01"`, independently of the wall clock. -/
theorem c9_date_normalization (todayIso s : String) :
    (isIsoShape s.data = true → parseDateBrasileira todayIso s = s) ∧
    (∀ d m y, matchDMY (trimChars s.data) = some (d, m, y) →
      parseDateBrasileira todayIso s = specFormatDMY d m y) ∧
    parseDateBrasileira todayIso "15/01/2024" = "2024-01-15" ∧
    parseDateBrasileira todayIso "01/12/23" = "2023-12-01" :=
  ⟨parseDateBrasileira_iso todayIso s,
   fun d m y h => parseDateBrasileira_dmy todayIso s d m y h,
   by rfl, by rfl⟩

/-- Witness for C9 at the claim's two example dates (plus the ISO
passthrough). -/
theorem c9_witness :
    isIsoShape ("2024-01-15" : String).data = true ∧
    matchDMY (trimChars ("15/01/2024" : String).data) =
      some (['1', '5'], ['0', '1'], ['2', '0', '2', '4']) ∧
    (parseDateBrasileira sampleToday "2024-01-15" = "2024-01-15" ∧
     parseDateBrasileira sampleToday "15/01/2024" =
       specFormatDMY ['1', '5'] ['0', '1'] ['2', '0', '2', '4']) :=
  ⟨by decide, by decide,
   (c9_date_normalization sampleToday "2024-01-15").1 (by decide),
   (c9_date_normalization sampleToday "15/01/2024").2.1 ['1', '5'] ['0', '1']
     ['2', '0', '2', '4'] (by decide)⟩

/-- Witness for C10 at a concrete two-level input. -/
theorem c10_witness :
    ((aggregateTransactions sampleToday [txAB]).categorias).Forall
      (fun e => e.transactionCount =
        [txAB].countP (fun t => (levelKeys t).contains e.categoria)) :=
  c10_transaction_counts sampleToday [txAB]
